import Mathlib

/-!
Verification of the CGGMP21 auxiliary-info & key-refresh protocol core
(`cggmp21/src/key_refresh.rs`), shallowly embedded in Lean.

Modelling conventions:
* curve scalars and points are modelled by integers, i.e. by an additive
  commutative group together with the group homomorphism `x ↦ G * x`
  standing for scalar multiplication of the fixed generator;
* `BigNumber` is modelled by `Nat`; `to_bytes` by base-256 digits;
* byte strings are lists of naturals;
* external cryptographic primitives (hash commitment, hash-to-scalar,
  Schnorr and `π_fac` verification) are collaborator interfaces: they are
  modelled either ideally (the hash commitment is injective on its inputs)
  or as parameters / records of the data the source passes to them;
* helper functions of the crate that are not part of the given sources
  (`utils::*`, the `SecurityLevel` trait) are modelled from the spec and
  are marked as such in their doc comments.
-/

namespace KeyRefresh

/-- Curve scalars, modelled as the integers (the refresh arithmetic only uses
the additive-group structure of the scalar field). -/
abbrev Scalar := Int

/-- Curve points, written additively and modelled as integers. -/
abbrev Point := Int

/-- Scalar multiplication of the fixed generator: `Point::generator() * x`.
The generator is the parameter `g`. -/
def gmul (g : Int) (x : Scalar) : Point := g * x

/-- Byte strings (`Vec<u8>` and friends). -/
abbrev Bytes := List Nat

/-- Valuation of a base-256 digit string (least significant digit first). -/
def ofBytes : Bytes → Nat
  | [] => 0
  | d :: rest => d + 256 * ofBytes rest

/-- Fuel-driven base-256 digit expansion. -/
def toBytesAux : Nat → Nat → Bytes
  | 0, _ => []
  | fuel + 1, n => if n = 0 then [] else n % 256 :: toBytesAux fuel (n / 256)

/-- Model of `BigNumber::to_bytes`: an injective byte encoding of a natural
number, taken to be its base-256 digits (least significant first). -/
def toBytes (n : Nat) : Bytes := toBytesAux n n

/-- Model of `BigNumber::bit_length`: the number of binary digits, `0` for
`0` and `⌊log₂ n⌋ + 1` otherwise. -/
def bitLength (n : Nat) : Nat := if n = 0 then 0 else Nat.log2 n + 1

/-- Round-2 broadcast message (`MsgRound2` in `key_refresh.rs`): the opening of
the round-1 hash commitment. Schnorr commitments are points (`Commit(Point)`);
the `π_prm` proof object is abstract and modelled by a natural number. -/
structure MsgRound2 where
  x : List Point
  sch_commits_a : List Point
  Y : Point
  sch_commit_b : Point
  N : Nat
  s : Nat
  t : Nat
  params_proof : Nat
  rho_bytes : Bytes
  decommit : Nat
deriving DecidableEq

/-- One datum mixed into the hash commitment builder. -/
inductive HCItem where
  | bytes (b : Bytes)
  | nat (k : Nat)
  | point (p : Point)
  | points (ps : List Point)
deriving DecidableEq

/-- An idealised `HashCommit` commitment: the hash is injective, so the
commitment is modelled by the mixed items together with the nonce. -/
structure Commitment where
  items : List HCItem
  nonce : Nat
deriving DecidableEq

/-- The `HashCommit::builder()...commit(rng)` call, nonce made explicit. -/
def hashCommit (items : List HCItem) (nonce : Nat) : Commitment := ⟨items, nonce⟩

/-- The `HashCommit::verify` call: recompute the commitment from the items and the
claimed nonce and compare. -/
def hashCommitVerify (items : List HCItem) (c : Commitment) (nonce : Nat) : Bool :=
  decide (c = hashCommit items nonce)

/-- The items mixed into `V_i` by the round-1 committer, transcribed from the
builder chain in `run_refresh` (lines 340-352): `sid`, `n`, `i`, `Xs`,
the A-list, `Y`, `N`, `s`, `t`, `ρ_i` -- and nothing else. -/
def commitItems (sid : Bytes) (n i : Nat) (Xs : List Point) (As : List Point)
    (Y : Point) (N s t : Nat) (rho : Bytes) : List HCItem :=
  [.bytes sid, .nat n, .nat i, .points Xs, .points As, .point Y,
   .bytes (toBytes N), .bytes (toBytes s), .bytes (toBytes t), .bytes rho]

/-- The items recomputed by the round-2 decommitment verifier, transcribed from
the builder chain in `run_refresh` (lines 408-421). -/
def verifyItems (sid : Bytes) (n j : Nat) (d : MsgRound2) : List HCItem :=
  [.bytes sid, .nat n, .nat j, .points d.x, .points d.sch_commits_a,
   .point d.Y, .bytes (toBytes d.N), .bytes (toBytes d.s),
   .bytes (toBytes d.t), .bytes d.rho_bytes]

/-- Sampling of the additive contributions `xs` (`run_refresh` lines 295-300):
`n - 1` sampled scalars `rs`, then one last element making the sum zero. -/
def sampleXs (rs : List Scalar) : List Scalar :=
  rs ++ [-(rs.foldl (· + ·) 0)]

/-- The public counterparts `Xs = G * xs` (`run_refresh` lines 306-309). -/
def samplePublicXs (g : Int) (rs : List Scalar) : List Point :=
  (sampleXs rs).map (gmul g)

/-- Sum of the decrypted peer shares plus the self-to-self share
(`run_refresh` line 709: `x_sum = shares.fold(0, +) + my_share`). -/
def xSum (shares : List Scalar) (myShare : Scalar) : Scalar :=
  shares.foldl (· + ·) 0 + myShare

/-- The refreshed secret share (`run_refresh` line 710:
`x_star = old_core_share.x + x_sum`). -/
def xStar (x : Scalar) (shares : List Scalar) (myShare : Scalar) : Scalar :=
  x + xSum shares myShare

/-- Per-index column sums of all parties' announced `Xs`
(`run_refresh` lines 712-718), `alld` being the full list of all `n` round-2
messages, own message included (`iter_including_me`). -/
def XProds (n : Nat) (alld : List MsgRound2) : List Point :=
  (List.range n).map fun k => (alld.map fun d => d.x.getD k 0).sum

/-- The refreshed public shares (`run_refresh` lines 719-724): old public
shares zipped with the column sums by point addition. -/
def XStars (public_shares : List Point) (n : Nat) (alld : List MsgRound2) :
    List Point :=
  List.zipWith (· + ·) public_shares (XProds n alld)

/-- Abort reasons (`ProtocolAbortReason` in `key_refresh.rs`). -/
inductive Reason where
  | InvalidDecommitment
  | InvalidSchnorrProof
  | InvalidModProof
  | InvalidFacProof
  | InvalidRingPedersenParameters
  | InvalidX
  | InvalidXShare
  | InvalidDataSize
deriving DecidableEq

/-- Internal-bug errors (`Bug` in `key_refresh.rs`). -/
inductive Bug where
  | InvalidHashToCurveTag
  | PaillierKeyError
  | HashToScalarError
  | PaillierEnc
  | TooManyParties
  | InvalidShareGenerated
  | PiMod
  | PiFac
  | PowMod
  | PiPrm
deriving DecidableEq

/-- Top-level error type (`KeyRefreshError` in `key_refresh.rs`): an abort
blaming peers, transport failures, or internal bugs. -/
inductive KeyRefreshError where
  | Aborted (reason : Reason) (parties : List Nat)
  | ReceiveMessage
  | SendError
  | SpawnError
  | InternalError (bug : Bug)
  | PaillierDec
  | InvalidScalar
deriving DecidableEq

/-- The party-count bound at `run_refresh` line 244:
`u16::try_from(core_share.public_shares.len()).map_err(|_| Bug::TooManyParties)?`,
the bug being wrapped into `KeyRefreshError::InternalError` by `#[from]`. -/
def checkPartiesCount (len : Nat) : Except KeyRefreshError Nat :=
  if len ≤ 65535 then .ok len else .error (.InternalError .TooManyParties)

/-- A peer's round-1 commitment paired with its round-2 opening, as the
verifier sees them (the two message stores zipped by party index `j`). -/
structure Peer2 where
  j : Nat
  commitment : Commitment
  msg : MsgRound2
deriving DecidableEq

/-- Modelled from the spec: `utils::collect_blame` / `collect_simple_blame`
(not part of the given sources) evaluate a predicate over all peers and
accumulate the list of offending party indices. -/
def collectBlame (pred : Peer2 → Bool) (peers : List Peer2) : List Nat :=
  (peers.filter pred).map Peer2.j

/-- Round-2 predicate 1 (`run_refresh` lines 404-423): the decommitment fails
to reopen the round-1 commitment. -/
def decommitFails (sid : Bytes) (n : Nat) (p : Peer2) : Bool :=
  !(hashCommitVerify (verifyItems sid n p.j p.msg) p.commitment p.msg.decommit)

/-- Round-2 predicate 2 (`run_refresh` lines 431-436): some list in the
opening has the wrong size. -/
def dataSizeBad (n secBytes : Nat) (d : MsgRound2) : Bool :=
  d.x.length != n || d.sch_commits_a.length != n - 1 ||
    d.rho_bytes.length != secBytes

/-- Round-2 predicate 3 (`run_refresh` lines 444-455): the modulus is too
short, or the `π_prm` proof does not verify. Note the source compares the
bit length of `N` against `L::SECURITY_BYTES`. The `π_prm` verifier is an
external primitive, passed as the oracle `prmOk`. -/
def prmBad (secBytes : Nat) (prmOk : MsgRound2 → Bool) (d : MsgRound2) : Bool :=
  if bitLength d.N < secBytes then true else !(prmOk d)

/-- Round-2 predicate 4 (`run_refresh` lines 463-465): the announced `Xs` do
not sum to the identity point. -/
def xSumBad (d : MsgRound2) : Bool :=
  decide (d.x.sum ≠ (0 : Point))

/-- Round-2 verification, transcribed from `run_refresh` lines 402-468: the
four checks run in source order, each collecting blame over all peers and
aborting if its blame list is non-empty. -/
def validateRound2 (sid : Bytes) (n secBytes : Nat) (prmOk : MsgRound2 → Bool)
    (peers : List Peer2) : Option (Reason × List Nat) :=
  let b1 := collectBlame (fun p => decommitFails sid n p) peers
  if b1 ≠ [] then some (.InvalidDecommitment, b1) else
  let b2 := collectBlame (fun p => dataSizeBad n secBytes p.msg) peers
  if b2 ≠ [] then some (.InvalidDataSize, b2) else
  let b3 := collectBlame (fun p => prmBad secBytes prmOk p.msg) peers
  if b3 ≠ [] then some (.InvalidRingPedersenParameters, b3) else
  let b4 := collectBlame (fun p => xSumBad p.msg) peers
  if b4 ≠ [] then some (.InvalidX, b4) else none

/-- The spec's reading of round-2 verification (section 4.4): an ordered list
of (reason, predicate) pairs; the first predicate whose culprit list over all
peers is non-empty decides the abort. -/
def firstNonEmpty (peers : List Peer2) :
    List (Reason × (Peer2 → Bool)) → Option (Reason × List Nat)
  | [] => none
  | (r, pred) :: rest =>
    let culprits := collectBlame pred peers
    if culprits ≠ [] then some (r, culprits) else firstNonEmpty peers rest

/-- The ordered round-2 check list as the spec states it: decommitment match,
data sizes, ring-Pedersen parameters, shares-sum-to-zero. -/
def round2Checks (sid : Bytes) (n secBytes : Nat) (prmOk : MsgRound2 → Bool) :
    List (Reason × (Peer2 → Bool)) :=
  [(.InvalidDecommitment, fun p => decommitFails sid n p),
   (.InvalidDataSize, fun p => dataSizeBad n secBytes p.msg),
   (.InvalidRingPedersenParameters, fun p => prmBad secBytes prmOk p.msg),
   (.InvalidX, fun p => xSumBad p.msg)]

/-- The predicate belonging to each round-2 abort reason. -/
def round2Pred (sid : Bytes) (n secBytes : Nat) (prmOk : MsgRound2 → Bool) :
    Reason → Peer2 → Bool
  | .InvalidDecommitment => fun p => decommitFails sid n p
  | .InvalidDataSize => fun p => dataSizeBad n secBytes p.msg
  | .InvalidRingPedersenParameters => fun p => prmBad secBytes prmOk p.msg
  | .InvalidX => fun p => xSumBad p.msg
  | _ => fun _ => false

/-- Ring-Pedersen auxiliary parameters bound into a `π_fac` proof
(`π_fac::Aux` of the external `paillier_zk` crate). -/
structure FacAux where
  s : Nat
  t : Nat
  rsa_modulo : Nat
deriving DecidableEq

/-- A `π_fac` proof object. The primitive is external; what the embedding
tracks is the data `π_fac::prove` binds: the auxiliary Ring-Pedersen
parameters and the modulus being proven about. -/
structure FacProof where
  aux : FacAux
  n : Nat
deriving DecidableEq

/-- The `π_fac::prove` call, recording its binding inputs. -/
def facProve (aux : FacAux) (n : Nat) : FacProof := ⟨aux, n⟩

/-- The `π_fac::verify` call: a proof verifies exactly under the auxiliary
parameters and modulus it was produced for. -/
def facVerify (aux : FacAux) (n : Nat) (pf : FacProof) : Bool :=
  decide (pf.aux = aux ∧ pf.n = n)

/-- The `π_fac` aux prepared once before the round-3 loop
(`run_refresh` lines 509-513): built from the sender's own `s`, `t`, `N`. -/
def senderFacAux (s t N : Nat) : FacAux := ⟨s, t, N⟩

/-- Modelled from the spec: `utils::iter_peers` (not part of the given
sources) iterates over all party indices except one's own, in order. -/
def iterPeers (i n : Nat) : List Nat :=
  (List.range n).filter fun j => j != i

/-- The `π_fac` proofs attached to the round-3 unicasts (`run_refresh`
lines 526-549): for every peer `j`, the message to `j` carries
`fac_proof = π_fac::prove(. , π_fac_aux, data.n = N, ..)` where `π_fac_aux`
is `senderFacAux` — the sender's own parameters. -/
def round3FacProofs (i n s t N : Nat) : List (Nat × FacProof) :=
  (iterPeers i n).map fun j => (j, facProve (senderFacAux s t N) N)

/-- The aux under which round-3 verification checks sender `j`'s `π_fac`
proof (`run_refresh` lines 682-688): the parameters from `j`'s own round-2
opening. -/
def facVerifyAuxOf (d : MsgRound2) : FacAux := ⟨d.s, d.t, d.N⟩

/-- Round-3 `π_fac` check for one sender (`run_refresh` lines 678-698). -/
def facCheckFails (d : MsgRound2) (pf : FacProof) : Bool :=
  !(facVerify (facVerifyAuxOf d) d.N pf)

/-- Modelled from the spec: `utils::xor_array` (not part of the given
sources) is the bitwise XOR of two byte strings. -/
def xorArray (a b : Bytes) : Bytes := List.zipWith Nat.xor a b

/-- The global randomness fold (`run_refresh` lines 479-482): the party's own
`ρ_i` folded with every peer's announced `ρ_j` by `xor_array`. -/
def rhoGlobal (own : Bytes) (peerRhos : List Bytes) : Bytes :=
  peerRhos.foldl xorArray own

/-- The Schnorr challenge at an index (`HashToScalar(tag, j.be_bytes, ρ)`),
with the hash-to-scalar primitive as the parameter `H`. -/
def challengeAt (H : Bytes → Nat → Bytes → Scalar) (tag : Bytes) (j : Nat)
    (rho : Bytes) : Scalar :=
  H tag j rho

/-- The challenge the party computes for its own round-3 proofs
(`run_refresh` lines 487 and 505): hash at its own index `i`. -/
def proveChallenge (H : Bytes → Nat → Bytes → Scalar) (tag : Bytes) (i : Nat)
    (rho : Bytes) : Scalar :=
  H tag i rho

/-- The challenge the party computes when verifying sender `j`'s round-3
proofs (`run_refresh` lines 619-621): hash at the sender's index `j`. -/
def verifyChallenge (H : Bytes → Nat → Bytes → Scalar) (tag : Bytes) (j : Nat)
    (rho : Bytes) : Scalar :=
  H tag j rho

/-- Round-3 unicast message (`MsgRound3` in `key_refresh.rs`). Proof objects
of external primitives are abstract (naturals); the `π_fac` proof keeps its
binding record. -/
structure MsgRound3 where
  mod_proof : Nat
  fac_proof : FacProof
  sch_proof_y : Nat
  C : Nat
  sch_proofs_x : List Nat
deriving DecidableEq

/-- Modelled from the spec (section 4.6): `utils::mine_from` (not part of the
given sources) selects the slot of sender `j`'s length-`n-1` commitment list
that `j` dedicated to party `i`: index `i` if `i < j`, else `i - 1`. -/
def mineFrom (i j : Nat) (l : List Point) : Point :=
  l.getD (if i < j then i else i - 1) 0

/-- The round-3 Schnorr check for one sender `j`, transcribed from
`run_refresh` lines 617-648: first the proof for `Y` under `B_j`, then the
length of `sch_proofs_x` against the sender's round-2 `Xs` list, then every
proof-against-point pair. The Schnorr verifier is the oracle `ver`
(proof, commitment, challenge, public point). -/
def schnorrBad (ver : Nat → Point → Scalar → Point → Bool)
    (H : Bytes → Nat → Bytes → Scalar) (tag : Bytes) (rho : Bytes) (i : Nat)
    (j : Nat) (d : MsgRound2) (m : MsgRound3) : Bool :=
  let challenge := verifyChallenge H tag j rho
  if !(ver m.sch_proof_y d.sch_commit_b challenge d.Y) then true
  else if m.sch_proofs_x.length != d.x.length then true
  else (m.sch_proofs_x.zip d.x).any fun pr =>
    !(ver pr.1 (mineFrom i j d.sch_commits_a) challenge pr.2)

/-- A sender's round-2 opening paired with its round-3 unicast, as the
receiving verifier sees them. -/
structure Peer3 where
  j : Nat
  d : MsgRound2
  m : MsgRound3
deriving DecidableEq

/-- The blame list of the round-3 Schnorr stage. -/
def round3SchnorrBlame (ver : Nat → Point → Scalar → Point → Bool)
    (H : Bytes → Nat → Bytes → Scalar) (tag : Bytes) (rho : Bytes) (i : Nat)
    (peers : List Peer3) : List Nat :=
  (peers.filter fun p => schnorrBad ver H tag rho i p.j p.d p.m).map Peer3.j

/-- The round-3 Schnorr validation stage (`run_refresh` lines 613-654):
culprits are collected over all senders; a non-empty list aborts with
`InvalidSchnorrProof`. -/
def round3SchnorrStage (ver : Nat → Point → Scalar → Point → Bool)
    (H : Bytes → Nat → Bytes → Scalar) (tag : Bytes) (rho : Bytes) (i : Nat)
    (peers : List Peer3) : Option (Reason × List Nat) :=
  let b := round3SchnorrBlame ver H tag rho i peers
  if b ≠ [] then some (.InvalidSchnorrProof, b) else none

/-- Modelled from the spec: the `SecurityLevel` trait is not among the given
sources. The spec fixes `S` as the security parameter in bits and `ρ_i` as
`S/8` bytes, so `SECURITY_BYTES = SECURITY_BITS / 8`. -/
structure SecurityLevel where
  bits : Nat

/-- The associated constant `L::SECURITY_BYTES`. -/
def SecurityLevel.bytes (L : SecurityLevel) : Nat := L.bits / 8

/-- The builder (`KeyRefreshBuilder` in `key_refresh.rs`). The referenced core
share, the execution id, the pregenerated primes and the tracer reference are
modelled as data. -/
structure KeyRefreshBuilder where
  core_share : Nat
  execution_id : Nat
  pregenerated : Option (Nat × Nat)
  tracer : Option Nat
deriving DecidableEq

/-- The default execution id, `ExecutionId::default()`. -/
def defaultExecutionId : Nat := 0

/-- The method `KeyRefreshBuilder::set_digest` (lines 167-174): keeps `core_share` and
resets every other field to its default. -/
def setDigest (b : KeyRefreshBuilder) : KeyRefreshBuilder :=
  { core_share := b.core_share, execution_id := defaultExecutionId,
    pregenerated := none, tracer := none }

/-- The method `KeyRefreshBuilder::set_execution_id` (lines 176-181). -/
def setExecutionId (b : KeyRefreshBuilder) (e : Nat) : KeyRefreshBuilder :=
  { b with execution_id := e }

/-- The method `KeyRefreshBuilder::set_pregenerated_data` (lines 186-191). -/
def setPregeneratedData (b : KeyRefreshBuilder) (pg : Nat × Nat) :
    KeyRefreshBuilder :=
  { b with pregenerated := some pg }

/-- The method `KeyRefreshBuilder::set_progress_tracer` (lines 193-196). -/
def setProgressTracer (b : KeyRefreshBuilder) (t : Nat) : KeyRefreshBuilder :=
  { b with tracer := some t }

/-- A concrete round-2 opening used as input for the hash-commitment
analysis. -/
def msgA : MsgRound2 := ⟨[1], [2], 3, 4, 5, 6, 7, 8, [9], 10⟩

/-- The same opening with a different Schnorr commitment `B` and a different
`π_prm` proof; every other field agrees with `msgA`. -/
def msgB : MsgRound2 := ⟨[1], [2], 3, 40, 5, 6, 7, 80, [9], 10⟩

/-- A concrete round-2 opening announcing a modulus `N = 2 ^ 39` of bit
length `40`, otherwise entirely well-formed for `n = 2` parties at security
level `S = 256` bits: `|Xs| = 2`, `ΣXs = 0`, `|A| = 1`, `|ρ| = 32`. -/
def msgShortN : MsgRound2 :=
  ⟨[5, -5], [7], 3, 4, 2 ^ 39, 6, 7, 8, List.replicate 32 0, 10⟩

/-- The round-2 view of the party announcing `msgShortN`, its commitment
honestly computed over the verifier's field order with its own nonce. -/
def peerShortN : Peer2 :=
  ⟨1, hashCommit (verifyItems [0] 2 1 msgShortN) msgShortN.decommit, msgShortN⟩

/-- A concrete hash-to-scalar oracle used by witnesses. -/
def sampleHash : Bytes → Nat → Bytes → Scalar :=
  fun _ j rho => (j : Int) + (rho.sum : Int)

/-! Helper lemmas shared by the claim theorems. -/

theorem ofBytes_toBytesAux (fuel : Nat) :
    ∀ n, n ≤ fuel → ofBytes (toBytesAux fuel n) = n := by
  induction fuel with
  | zero =>
    intro n h
    have : n = 0 := Nat.le_zero.mp h
    simp [this, toBytesAux, ofBytes]
  | succ f ih =>
    intro n h
    by_cases h0 : n = 0
    · simp [h0, toBytesAux, ofBytes]
    · have hdiv : n / 256 ≤ f := by
        have hlt : n / 256 < n := Nat.div_lt_self (Nat.pos_of_ne_zero h0) (by omega)
        omega
      simp only [toBytesAux, h0, if_false, ofBytes, ih _ hdiv]
      omega

theorem bitLength_two_pow (k : Nat) : bitLength (2 ^ k) = k + 1 := by
  rw [bitLength, if_neg (pow_ne_zero k (by omega)), Nat.log2_eq_log_two,
    Nat.log_pow (by omega)]

theorem hashCommitVerify_commit (items : List HCItem) (nonce : Nat) :
    hashCommitVerify items (hashCommit items nonce) nonce = true := by
  simp [hashCommitVerify]

theorem toBytes_injective {a b : Nat} (h : toBytes a = toBytes b) : a = b := by
  have ha : ofBytes (toBytes a) = a := ofBytes_toBytesAux a a le_rfl
  have hb : ofBytes (toBytes b) = b := ofBytes_toBytesAux b b le_rfl
  rw [← ha, ← hb, h]

theorem foldl_add_eq_sum (l : List Scalar) (a : Scalar) :
    l.foldl (· + ·) a = a + l.sum := by
  induction l generalizing a with
  | nil => simp
  | cons h t ih => simp [List.foldl_cons, ih, add_assoc]

theorem getD_zipWith_add (a b : List Int) (k : Nat) (ha : k < a.length)
    (hb : k < b.length) :
    (List.zipWith (· + ·) a b).getD k 0 = a.getD k 0 + b.getD k 0 := by
  have hz : k < (List.zipWith (· + ·) a b).length := by
    simp [List.length_zipWith]
    omega
  rw [List.getD_eq_getElem _ _ hz, List.getD_eq_getElem _ _ ha,
    List.getD_eq_getElem _ _ hb]
  simp

theorem perm_get_cons_eraseIdx {α : Type} [DecidableEq α] (l : List α)
    (i : Nat) (h : i < l.length) :
    List.Perm l (l.get ⟨i, h⟩ :: l.eraseIdx i) :=
  (List.perm_cons_erase (l.getElem_mem h)).trans
    (List.Perm.cons _ (List.erase_getElem h))

theorem xorArray_rightComm (b a1 a2 : Bytes) :
    xorArray (xorArray b a1) a2 = xorArray (xorArray b a2) a1 := by
  induction b generalizing a1 a2 with
  | nil => simp [xorArray]
  | cons x xs ih =>
    cases a1 with
    | nil => cases a2 <;> simp [xorArray]
    | cons y ys =>
      cases a2 with
      | nil => simp [xorArray]
      | cons z zs =>
        simp only [xorArray, List.zipWith_cons_cons] at ih ⊢
        rw [ih ys zs]
        congr 1
        show x ^^^ y ^^^ z = x ^^^ z ^^^ y
        rw [Nat.xor_assoc, Nat.xor_assoc, Nat.xor_comm y z]

theorem xorArray_replicate_zero (r : Bytes) :
    xorArray (List.replicate r.length 0) r = r := by
  induction r with
  | nil => simp [xorArray]
  | cons x xs ih =>
    simp only [xorArray] at ih
    simp only [List.length_cons, List.replicate_succ, xorArray,
      List.zipWith_cons_cons]
    rw [ih]
    congr 1
    exact Nat.zero_xor x

theorem rhoGlobal_eq_foldl_all (L : Nat) (rhos : List Bytes) (a : Nat)
    (ha : a < rhos.length) (hlen : ∀ r ∈ rhos, r.length = L) :
    rhoGlobal (rhos.get ⟨a, ha⟩) (rhos.eraseIdx a) =
      rhos.foldl xorArray (List.replicate L 0) := by
  have hown : (rhos.get ⟨a, ha⟩).length = L :=
    hlen _ (rhos.get_mem a ha)
  have hunit : xorArray (List.replicate L 0) (rhos.get ⟨a, ha⟩) =
      rhos.get ⟨a, ha⟩ := by
    rw [← hown]
    exact xorArray_replicate_zero _
  have hperm := perm_get_cons_eraseIdx rhos a ha
  calc rhoGlobal (rhos.get ⟨a, ha⟩) (rhos.eraseIdx a)
      = (rhos.eraseIdx a).foldl xorArray
          (xorArray (List.replicate L 0) (rhos.get ⟨a, ha⟩)) := by
        rw [hunit]; rfl
    _ = (rhos.get ⟨a, ha⟩ :: rhos.eraseIdx a).foldl xorArray
          (List.replicate L 0) := by
        rw [List.foldl_cons]
    _ = rhos.foldl xorArray (List.replicate L 0) :=
        @List.Perm.foldl_eq _ _ xorArray _ _ ⟨xorArray_rightComm⟩
          hperm.symm (List.replicate L 0)

/-! Claim theorems. -/

/-- C1 counterexample: two round-2 openings that differ precisely in the
revealed Schnorr commitment `B` and in the revealed `π_prm` proof produce
bit-identical round-1 hash commitments, so those two revealed quantities are
not inputs to `V_i` — refuting the claim that every quantity revealed in the
round-2 broadcast appears under `V_i`. -/
theorem claim_C1_counterexample :
    msgA ≠ msgB ∧
    msgA.sch_commit_b ≠ msgB.sch_commit_b ∧
    msgA.params_proof ≠ msgB.params_proof ∧
    hashCommit (verifyItems [0] 2 1 msgA) 10 =
      hashCommit (verifyItems [0] 2 1 msgB) 10 :=
  ⟨by decide, by decide, by decide, rfl⟩

/-- C1 (amended): of the quantities revealed in the round-2 broadcast,
`Xs`, the A-list, `Y`, `N`, `s`, `t` and `ρ_i` appear as inputs to the
round-1 hash commitment `V_i`, which determines them, and `u_i` is bound as
its opening nonce; the Schnorr commitment `B` and the `π_prm` proof are
revealed in round 2 but are not inputs to `V_i`. The field order used when
computing `V_i` is identical to the field order used by the round-2
decommitment verifier. -/
theorem claim_C1_amended (sid : Bytes) (n j : Nat) (d1 d2 : MsgRound2)
    (u1 u2 : Nat)
    (h : hashCommit (verifyItems sid n j d1) u1 =
      hashCommit (verifyItems sid n j d2) u2) :
    verifyItems sid n j d1 =
      commitItems sid n j d1.x d1.sch_commits_a d1.Y d1.N d1.s d1.t
        d1.rho_bytes ∧
    d1.x = d2.x ∧ d1.sch_commits_a = d2.sch_commits_a ∧ d1.Y = d2.Y ∧
    d1.N = d2.N ∧ d1.s = d2.s ∧ d1.t = d2.t ∧
    d1.rho_bytes = d2.rho_bytes ∧ u1 = u2 := by
  have hitems : verifyItems sid n j d1 = verifyItems sid n j d2 :=
    congrArg Commitment.items h
  have hnonce : u1 = u2 := congrArg Commitment.nonce h
  simp only [verifyItems, List.cons.injEq, HCItem.bytes.injEq,
    HCItem.nat.injEq, HCItem.point.injEq, HCItem.points.injEq, and_true,
    true_and] at hitems
  obtain ⟨hx, ha, hY, hN, hs, ht, hrho⟩ := hitems
  exact ⟨rfl, hx, ha, hY, toBytes_injective hN, toBytes_injective hs,
    toBytes_injective ht, hrho, hnonce⟩

/-- C1 witness: the amended theorem applied to a concrete opening committed
with nonce `0`. -/
theorem claim_C1_witness :
    verifyItems [0] 2 1 msgA =
      commitItems [0] 2 1 msgA.x msgA.sch_commits_a msgA.Y msgA.N msgA.s
        msgA.t msgA.rho_bytes ∧
    msgA.x = msgA.x ∧ msgA.sch_commits_a = msgA.sch_commits_a ∧
    msgA.Y = msgA.Y ∧ msgA.N = msgA.N ∧ msgA.s = msgA.s ∧
    msgA.t = msgA.t ∧ msgA.rho_bytes = msgA.rho_bytes ∧ (0 : Nat) = 0 :=
  claim_C1_amended [0] 2 1 msgA msgA 0 0 rfl

/-- C2 counterexample: with the sender's own Ring-Pedersen parameters
`(s, t, N) = (1, 2, 15)` and peer `1` announcing `(3, 4, 35)` in its round-2
opening, the `π_fac` proof the sender produces for peer `1` is bound to
`(1, 2, 15)` — the sender's own parameters — and not to the parameters taken
from peer `1`'s opening, refuting the claim. -/
theorem claim_C2_counterexample :
    round3FacProofs 0 2 1 2 15 = [(1, facProve (senderFacAux 1 2 15) 15)] ∧
    (facProve (senderFacAux 1 2 15) 15).aux ≠
      facVerifyAuxOf (⟨[], [], 0, 0, 35, 3, 4, 0, [], 0⟩ : MsgRound2) :=
  ⟨by decide, by decide⟩

/-- C2 (amended): for every peer `j`, the `π_fac` proof `φ_i^j` that the
party sends to `j` in round 3 is produced using the sender's own auxiliary
parameters `(s, t, N)` — not the recipient's — and the round-3 verifier
correspondingly checks sender `j`'s proof under the parameters announced in
`j`'s own round-2 opening, so an honestly produced proof passes. -/
theorem claim_C2_amended (i n s t N : Nat) (j : Nat) (pf : FacProof)
    (d : MsgRound2)
    (hmem : (j, pf) ∈ round3FacProofs i n s t N)
    (hds : d.s = s) (hdt : d.t = t) (hdN : d.N = N) :
    pf.aux = senderFacAux s t N ∧ pf.n = N ∧
    facCheckFails d pf = false := by
  have hpf : pf = facProve (senderFacAux s t N) N := by
    simp only [round3FacProofs, List.mem_map] at hmem
    obtain ⟨j2, _, heq⟩ := hmem
    exact (Prod.mk.injEq _ _ _ _ ▸ heq).2.symm ▸ rfl
  subst hpf
  refine ⟨rfl, rfl, ?_⟩
  simp [facCheckFails, facVerify, facVerifyAuxOf, facProve, senderFacAux,
    hds, hdt, hdN]

/-- C2 witness: the amended theorem applied to the concrete run of the
counterexample, the recipient's opening now honestly matching the sender. -/
theorem claim_C2_witness :
    (facProve (senderFacAux 1 2 15) 15).aux = senderFacAux 1 2 15 ∧
    (facProve (senderFacAux 1 2 15) 15).n = 15 ∧
    facCheckFails (⟨[], [], 0, 0, 15, 1, 2, 0, [], 0⟩ : MsgRound2)
      (facProve (senderFacAux 1 2 15) 15) = false :=
  claim_C2_amended 0 2 1 2 15 1 (facProve (senderFacAux 1 2 15) 15)
    (⟨[], [], 0, 0, 15, 1, 2, 0, [], 0⟩ : MsgRound2)
    (by decide) rfl rfl rfl

/-- C7: in round 1, for every `n ≥ 2`, the sampled vector `xs` of `n`
additive contributions (obtained from `n - 1` sampled scalars and a closing
element) sums to zero in the scalar field, has length `n`, and the public
vector satisfies `Xs[k] = G * xs[k]` for every index `k < n`. -/
theorem claim_C7 (g : Int) (n k : Nat) (rs : List Scalar)
    (hn : 2 ≤ n) (hlen : rs.length = n - 1) (hk : k < n) :
    (sampleXs rs).length = n ∧ (sampleXs rs).sum = 0 ∧
    (samplePublicXs g rs).getD k 0 = gmul g ((sampleXs rs).getD k 0) := by
  have hlength : (sampleXs rs).length = n := by
    simp [sampleXs, hlen]
    omega
  refine ⟨hlength, ?_, ?_⟩
  · simp [sampleXs, List.sum_append, foldl_add_eq_sum]
  · have hkx : k < (sampleXs rs).length := by omega
    have hkp : k < (samplePublicXs g rs).length := by
      simp [samplePublicXs]
      omega
    rw [List.getD_eq_getElem _ _ hkp, List.getD_eq_getElem _ _ hkx]
    simp [samplePublicXs]

/-- C7 witness: the theorem applied at `g = 2`, `n = 2`, `rs = [5]`, `k = 1`. -/
theorem claim_C7_witness :
    (sampleXs [(5 : Int)]).length = 2 ∧ (sampleXs [(5 : Int)]).sum = 0 ∧
    (samplePublicXs 2 [(5 : Int)]).getD 1 0 =
      gmul 2 ((sampleXs [(5 : Int)]).getD 1 0) :=
  claim_C7 2 2 1 [(5 : Int)] (by decide) (by decide) (by decide)

/-- C4: on success the new secret share is
`x* = x + xs[i] + Σ_{j ≠ i} share_j` (the peer shares folded, plus the
party's own contribution to itself), and for every `k < n` the new public
share is `X*[k] = public_shares[k] + Σ_j Xs_j[k]`, the sum ranging over all
parties' round-2 announcements, self included. -/
theorem claim_C4 (x : Scalar) (xs shares : List Scalar) (i k n : Nat)
    (ps : List Point) (alld : List MsgRound2)
    (hps : ps.length = n) (hk : k < n) :
    xStar x shares (xs.getD i 0) = x + xs.getD i 0 + shares.sum ∧
    (XStars ps n alld).getD k 0 =
      ps.getD k 0 + (alld.map fun d => d.x.getD k 0).sum := by
  constructor
  · simp only [xStar, xSum, foldl_add_eq_sum]
    ring
  · have hkprod : k < (XProds n alld).length := by
      simp [XProds]
      omega
    rw [XStars, getD_zipWith_add ps (XProds n alld) k (by omega) hkprod]
    congr 1
    rw [List.getD_eq_getElem _ _ hkprod]
    simp [XProds]

/-- C4 witness: two parties, concrete shares and announcements. -/
theorem claim_C4_witness :
    xStar 10 [4] ([(7 : Int), 3].getD 1 0) = 10 + [(7 : Int), 3].getD 1 0 + [(4 : Int)].sum ∧
    (XStars [20, 30] 2
        [⟨[1, 2], [], 0, 0, 0, 0, 0, 0, [], 0⟩,
         ⟨[5, 6], [], 0, 0, 0, 0, 0, 0, [], 0⟩]).getD 1 0 =
      [(20 : Int), 30].getD 1 0 +
        (([⟨[1, 2], [], 0, 0, 0, 0, 0, 0, [], 0⟩,
           ⟨[5, 6], [], 0, 0, 0, 0, 0, 0, [], 0⟩] : List MsgRound2).map
            fun d => d.x.getD 1 0).sum :=
  claim_C4 10 [(7 : Int), 3] [4] 1 1 2 [20, 30]
    [⟨[1, 2], [], 0, 0, 0, 0, 0, 0, [], 0⟩,
     ⟨[5, 6], [], 0, 0, 0, 0, 0, 0, [], 0⟩]
    (by decide) (by decide)

/-- C8: when the number of parties exceeds `65535`, the party-count check
fails with the internal-bug error `TooManyParties`, an error constructor
disjoint from `Aborted` (which blames peers) and from the transport errors
`SendError` and `ReceiveMessage`. -/
theorem claim_C8 (len : Nat) (r : Reason) (cs : List Nat)
    (h : 65535 < len) :
    checkPartiesCount len = .error (.InternalError .TooManyParties) ∧
    KeyRefreshError.InternalError .TooManyParties ≠ .Aborted r cs ∧
    KeyRefreshError.InternalError .TooManyParties ≠ .SendError ∧
    KeyRefreshError.InternalError .TooManyParties ≠ .ReceiveMessage := by
  refine ⟨?_, by simp, by simp, by simp⟩
  simp [checkPartiesCount]
  omega

/-- C8 witness: the theorem applied at `len = 65536`. -/
theorem claim_C8_witness :
    checkPartiesCount 65536 = .error (.InternalError .TooManyParties) ∧
    KeyRefreshError.InternalError .TooManyParties ≠
      .Aborted .InvalidX [0] ∧
    KeyRefreshError.InternalError .TooManyParties ≠ .SendError ∧
    KeyRefreshError.InternalError .TooManyParties ≠ .ReceiveMessage :=
  claim_C8 65536 .InvalidX [0] (by decide)

/-- C10: `set_digest` keeps only the core-share reference: it resets the
execution id to its default (as its documentation warns) and also silently
resets previously supplied pregenerated primes to `None` and drops the
progress tracer. -/
theorem claim_C10 (b : KeyRefreshBuilder) (e tr : Nat) (pg : Nat × Nat) :
    (setDigest (setPregeneratedData (setProgressTracer
        (setExecutionId b e) tr) pg)).pregenerated = none ∧
    (setDigest (setPregeneratedData (setProgressTracer
        (setExecutionId b e) tr) pg)).tracer = none ∧
    (setDigest (setPregeneratedData (setProgressTracer
        (setExecutionId b e) tr) pg)).execution_id = defaultExecutionId ∧
    (setDigest (setPregeneratedData (setProgressTracer
        (setExecutionId b e) tr) pg)).core_share = b.core_share := by
  refine ⟨rfl, rfl, rfl, rfl⟩

/-- C3: evaluation of the round-2 ring-Pedersen check at the failing input.
At security level `S = 256` bits, a peer announcing a modulus of bit length
`40 < 256` with a valid `π_prm` proof and an otherwise well-formed opening is
NOT blamed: round-2 validation succeeds, because the source compares
`N.bit_length()` against `L::SECURITY_BYTES = S/8 = 32` instead of the
security parameter in bits. -/
theorem claim_C3_code_eval :
    bitLength msgShortN.N = 40 ∧
    bitLength msgShortN.N < 256 ∧
    SecurityLevel.bytes ⟨256⟩ = 32 ∧
    validateRound2 [0] 2 (SecurityLevel.bytes ⟨256⟩) (fun _ => true)
      [peerShortN] = none := by
  have hbl : bitLength msgShortN.N = 40 := bitLength_two_pow 39
  refine ⟨hbl, by omega, rfl, ?_⟩
  have h1 : decommitFails [0] 2 peerShortN = false := by
    show (!(hashCommitVerify (verifyItems [0] 2 1 msgShortN)
      (hashCommit (verifyItems [0] 2 1 msgShortN) msgShortN.decommit)
      msgShortN.decommit)) = false
    rw [hashCommitVerify_commit]
    rfl
  have h2 : dataSizeBad 2 (SecurityLevel.bytes ⟨256⟩) msgShortN = false := by
    simp [dataSizeBad, msgShortN, SecurityLevel.bytes]
  have h3 : prmBad (SecurityLevel.bytes ⟨256⟩) (fun _ => true) msgShortN
      = false := by
    rw [prmBad, if_neg (by rw [hbl]; simp [SecurityLevel.bytes])]
    simp
  have h4 : xSumBad msgShortN = false := by
    simp [xSumBad, msgShortN]
  have hmsg : peerShortN.msg = msgShortN := rfl
  simp only [validateRound2, collectBlame, List.filter_cons,
    List.filter_nil, hmsg, h1, h2, h3, h4]
  simp

/-- C5: round-2 verification is exactly the first-non-empty-check-wins
cascade over the four predicates in the order: decommitment match, data
sizes, `π_prm` validity, shares-sum-to-zero; and whenever it aborts with a
reason `r` and culprit list `cs`, the list `cs` is non-empty and is exactly
the accumulation of `r`'s predicate over all peers. -/
theorem claim_C5 (sid : Bytes) (n secBytes : Nat) (prmOk : MsgRound2 → Bool)
    (peers : List Peer2) (r : Reason) (cs : List Nat)
    (h : validateRound2 sid n secBytes prmOk peers = some (r, cs)) :
    validateRound2 sid n secBytes prmOk peers =
      firstNonEmpty peers (round2Checks sid n secBytes prmOk) ∧
    cs ≠ [] ∧
    cs = collectBlame (round2Pred sid n secBytes prmOk r) peers := by
  refine ⟨rfl, ?_⟩
  simp only [validateRound2] at h
  split at h
  · rename_i hc
    obtain ⟨hr, hcs⟩ := Prod.mk.injEq .. ▸ Option.some.inj h
    subst hr; subst hcs
    exact ⟨hc, rfl⟩
  · split at h
    · rename_i hc
      obtain ⟨hr, hcs⟩ := Prod.mk.injEq .. ▸ Option.some.inj h
      subst hr; subst hcs
      exact ⟨hc, rfl⟩
    · split at h
      · rename_i hc
        obtain ⟨hr, hcs⟩ := Prod.mk.injEq .. ▸ Option.some.inj h
        subst hr; subst hcs
        exact ⟨hc, rfl⟩
      · split at h
        · rename_i hc
          obtain ⟨hr, hcs⟩ := Prod.mk.injEq .. ▸ Option.some.inj h
          subst hr; subst hcs
          exact ⟨hc, rfl⟩
        · exact absurd h (by simp)

/-- C5 witness: a concrete run with one peer whose opening reopens its
commitment but has a short `Xs` list, aborting at the data-size check. -/
theorem claim_C5_witness :
    validateRound2 [0] 2 1 (fun _ => true)
        [⟨1, hashCommit (verifyItems [0] 2 1 msgA) msgA.decommit, msgA⟩] =
      firstNonEmpty
        [⟨1, hashCommit (verifyItems [0] 2 1 msgA) msgA.decommit, msgA⟩]
        (round2Checks [0] 2 1 (fun _ => true)) ∧
    [1] ≠ ([] : List Nat) ∧
    [1] = collectBlame (round2Pred [0] 2 1 (fun _ => true) .InvalidDataSize)
        [⟨1, hashCommit (verifyItems [0] 2 1 msgA) msgA.decommit, msgA⟩] :=
  claim_C5 [0] 2 1 (fun _ => true)
    [⟨1, hashCommit (verifyItems [0] 2 1 msgA) msgA.decommit, msgA⟩]
    .InvalidDataSize [1] (by decide)

/-- C6: the global randomness of party `a` — its own `ρ_a` folded by
`xor_array` over all peers' announced `ρ` — is bitwise equal to that of any
other party `b`, and the Schnorr challenge at any index `j`, used at `j = i`
to produce one's own round-3 proofs and at `j = `sender to verify a sender's
proofs, is `HashToScalar(tag, j.be_bytes, ρ)`, hence also identical between
the two parties. -/
theorem claim_C6 (L : Nat) (tag : Bytes) (H : Bytes → Nat → Bytes → Scalar)
    (rhos : List Bytes) (a b j : Nat)
    (ha : a < rhos.length) (hb : b < rhos.length)
    (hlen : ∀ r ∈ rhos, r.length = L) :
    rhoGlobal (rhos.get ⟨a, ha⟩) (rhos.eraseIdx a) =
      rhoGlobal (rhos.get ⟨b, hb⟩) (rhos.eraseIdx b) ∧
    proveChallenge H tag j (rhoGlobal (rhos.get ⟨a, ha⟩) (rhos.eraseIdx a)) =
      challengeAt H tag j (rhoGlobal (rhos.get ⟨b, hb⟩) (rhos.eraseIdx b)) ∧
    verifyChallenge H tag j (rhoGlobal (rhos.get ⟨a, ha⟩) (rhos.eraseIdx a)) =
      challengeAt H tag j (rhoGlobal (rhos.get ⟨b, hb⟩) (rhos.eraseIdx b)) := by
  have hr : rhoGlobal (rhos.get ⟨a, ha⟩) (rhos.eraseIdx a) =
      rhoGlobal (rhos.get ⟨b, hb⟩) (rhos.eraseIdx b) :=
    (rhoGlobal_eq_foldl_all L rhos a ha hlen).trans
      (rhoGlobal_eq_foldl_all L rhos b hb hlen).symm
  refine ⟨hr, ?_, ?_⟩
  · rw [proveChallenge, challengeAt, hr]
  · rw [verifyChallenge, challengeAt, hr]

/-- C6 witness: three parties with one-byte randomness. -/
theorem claim_C6_witness :
    rhoGlobal [1] [[2], [3]] = rhoGlobal [3] [[1], [2]] ∧
    proveChallenge sampleHash [] 1 (rhoGlobal [1] [[2], [3]]) =
      challengeAt sampleHash [] 1 (rhoGlobal [3] [[1], [2]]) ∧
    verifyChallenge sampleHash [] 1 (rhoGlobal [1] [[2], [3]]) =
      challengeAt sampleHash [] 1 (rhoGlobal [3] [[1], [2]]) :=
  claim_C6 1 [] sampleHash [[1], [2], [3]] 0 2 1 (by decide) (by decide)
    (by decide)

/-- C9: a round-3 sender whose `sch_proofs_x` list has a length different
from `n` (the length of its round-2 `Xs` list, equal to `n` after round-2
validation) is blamed by the round-3 Schnorr stage, which aborts with reason
`InvalidSchnorrProof` naming that sender — while the round-2 data-size
predicate, which never inspects round-3 messages, accepts the same sender's
round-2 message. -/
theorem claim_C9 (ver : Nat → Point → Scalar → Point → Bool)
    (H : Bytes → Nat → Bytes → Scalar) (tag rho : Bytes) (i n secBytes : Nat)
    (p : Peer3) (peers : List Peer3)
    (hmem : p ∈ peers)
    (hxlen : p.d.x.length = n)
    (halen : p.d.sch_commits_a.length = n - 1)
    (hrlen : p.d.rho_bytes.length = secBytes)
    (hbad : p.m.sch_proofs_x.length ≠ n) :
    round3SchnorrStage ver H tag rho i peers =
      some (.InvalidSchnorrProof, round3SchnorrBlame ver H tag rho i peers) ∧
    p.j ∈ round3SchnorrBlame ver H tag rho i peers ∧
    dataSizeBad n secBytes p.d = false := by
  have hpbad : schnorrBad ver H tag rho i p.j p.d p.m = true := by
    unfold schnorrBad
    by_cases hv : ver p.m.sch_proof_y p.d.sch_commit_b
        (verifyChallenge H tag p.j rho) p.d.Y
    · simp only [hv, Bool.not_true, Bool.false_eq_true, if_false]
      have : p.m.sch_proofs_x.length != p.d.x.length := by
        rw [hxlen]
        exact bne_iff_ne.mpr hbad
      simp [this]
    · simp [hv]
  have hjmem : p.j ∈ round3SchnorrBlame ver H tag rho i peers := by
    simp only [round3SchnorrBlame, List.mem_map]
    exact ⟨p, List.mem_filter.mpr ⟨hmem, hpbad⟩, rfl⟩
  refine ⟨?_, hjmem, ?_⟩
  · simp only [round3SchnorrStage]
    rw [if_pos (List.ne_nil_of_mem hjmem)]
  · simp only [dataSizeBad, hxlen, halen, hrlen, bne_self_eq_false,
      Bool.or_self]

/-- C9 witness: one sender with a well-sized round-2 opening (that of the
modulus example, `|Xs| = 2`, `|A| = 1`, `|ρ| = 32`) but an empty round-3
Schnorr proof list for `n = 2`. -/
theorem claim_C9_witness :
    round3SchnorrStage (fun _ _ _ _ => true) sampleHash [] [0] 0
        [⟨1, msgShortN, ⟨0, ⟨⟨0, 0, 0⟩, 0⟩, 0, 0, []⟩⟩] =
      some (.InvalidSchnorrProof,
        round3SchnorrBlame (fun _ _ _ _ => true) sampleHash [] [0] 0
          [⟨1, msgShortN, ⟨0, ⟨⟨0, 0, 0⟩, 0⟩, 0, 0, []⟩⟩]) ∧
    1 ∈ round3SchnorrBlame (fun _ _ _ _ => true) sampleHash [] [0] 0
        [⟨1, msgShortN, ⟨0, ⟨⟨0, 0, 0⟩, 0⟩, 0, 0, []⟩⟩] ∧
    dataSizeBad 2 32 msgShortN = false :=
  claim_C9 (fun _ _ _ _ => true) sampleHash [] [0] 0 2 32
    ⟨1, msgShortN, ⟨0, ⟨⟨0, 0, 0⟩, 0⟩, 0, 0, []⟩⟩
    [⟨1, msgShortN, ⟨0, ⟨⟨0, 0, 0⟩, 0⟩, 0, 0, []⟩⟩]
    (by decide) (by decide) (by decide) (by decide) (by decide)

end KeyRefresh
